import Mathlib

/-!
Verification development for the dataset-ingestion pipeline of the
ai-content-classification-rfc repository.  The definitions below are a
shallow embedding of `docs/examples/batch-processing/ml-pipeline.js`
(classes `DatasetStats`, `FileProcessor`, `MLPipeline` and the CLI entry
point).  JavaScript objects become structures, association lists model
JS object key/value maps (insertion order preserved, as in JS), and the
filesystem / hash environment is made explicit.
-/

namespace MLPipeline

/-- JS `haystack.startsWith(needle)` over character lists. -/
def listStarts : List Char → List Char → Bool
  | _, [] => true
  | [], _ :: _ => false
  | a :: as, b :: bs => a == b && listStarts as bs

/-- JS `String.prototype.includes`: substring containment. -/
def listHasSub : List Char → List Char → Bool
  | [], pat => pat.isEmpty
  | h :: t, pat => listStarts (h :: t) pat || listHasSub t pat

/-- `fileName.includes(pattern)` from the exclude-pattern check. -/
def strIncludes (s pat : String) : Bool :=
  listHasSub s.toList pat.toList

/-- JS `String.prototype.endsWith` over character lists. -/
def strEnds (s pat : String) : Bool :=
  listStarts s.toList.reverse pat.toList.reverse

/-- Characters of the last path component, reading right to left. -/
def takeUntilSlash : List Char → List Char
  | [] => []
  | c :: rest => if c == '/' then [] else c :: takeUntilSlash rest

/-- `path.basename`: the last `/`-separated component. -/
def baseName (p : String) : String :=
  ⟨(takeUntilSlash p.toList.reverse).reverse⟩

/-- Strict lexicographic (code-point) order on character lists, used to
state ordering properties of discovery. -/
def lexLt : List Char → List Char → Bool
  | [], [] => false
  | [], _ :: _ => true
  | _ :: _, [] => false
  | a :: as, b :: bs =>
      if a == b then lexLt as bs else decide (a.toNat < b.toNat)

/-- `path.relative(root, p)` for the paths produced by `findFiles`,
which always have the shape `root ++ "/" ++ rel`. -/
def relativeTo (root p : String) : String :=
  let pre := (root ++ "/").toList
  if listStarts p.toList pre then ⟨p.toList.drop pre.length⟩ else p

/-- The projection of a metadata record that `recordFile` consumes
(`metadata.toObject()` fields used at lines 56-64 of ml-pipeline.js). -/
structure StatsMeta where
  origin : String
  author : String
  license : Option String
  toolchain : Option String
  deriving DecidableEq, Repr

/-- Result of `metadata.validate()` as used by `FileProcessor.processFile`
(fields `isValid` and `error`). -/
structure ValidationResult where
  isValid : Bool
  error : String
  deriving DecidableEq, Repr

/-- Modelled from the spec: the `ContentMetadata` record of
`lib/core/metadata.js`, which is not among the provided sources; only the
fields the pipeline reads are carried (`origin`, `author`, `license`,
`toolchain`, `contentHash`), together with the outcome of its
`validate()` method. -/
structure MetadataModel where
  origin : String
  author : String
  license : Option String
  toolchain : Option String
  contentHash : String
  validation : ValidationResult
  deriving DecidableEq, Repr

/-- `metadata.toObject()` restricted to the fields `recordFile` reads. -/
def toObject (m : MetadataModel) : StatsMeta :=
  { origin := m.origin, author := m.author,
    license := m.license, toolchain := m.toolchain }

/-- One content item as the pipeline sees it: its byte size (from
`fs.statSync`), the result of `FileProcessor.extractMetadata` over its
sidecar/embedded sources, its content bytes, and the SHA-256 digest of
those bytes.  The digest is carried as data because the hash function
itself is opaque to the model. -/
structure FileModel where
  size : Nat
  extracted : Option MetadataModel
  content : List Nat
  recomputedHash : String
  deriving DecidableEq, Repr

/-- Modelled from the spec: `ContentMetadata.verifyIntegrity`
(`lib/core/metadata.js` is not among the provided sources).  The spec
states it returns true iff the recomputed SHA-256 of the content equals
`contentHash`; the file model carries the recomputed digest. -/
def verifyIntegrity (m : MetadataModel) (f : FileModel) : Bool :=
  m.contentHash == f.recomputedHash

/-- The `DatasetStats` object (ml-pipeline.js lines 33-105).  JS object
maps become association lists in insertion order; `sizeStats.min` starts
at `Infinity`, modelled as `none`. -/
structure DatasetStats where
  totalFiles : Nat
  processedFiles : Nat
  skippedFiles : Nat
  errorFiles : Nat
  originCounts : List (String × Nat)
  authorCounts : List (String × Nat)
  licenseCounts : List (String × Nat)
  toolchainCounts : List (String × Nat)
  sizeMin : Option Nat
  sizeMax : Nat
  sizeTotal : Nat
  errors : List (String × String)
  deriving DecidableEq, Repr

/-- `DatasetStats.reset()`: the state installed by the constructor. -/
def resetStats : DatasetStats :=
  { totalFiles := 0, processedFiles := 0, skippedFiles := 0, errorFiles := 0,
    originCounts := [("human", 0), ("ai", 0), ("hybrid", 0)],
    authorCounts := [], licenseCounts := [], toolchainCounts := [],
    sizeMin := none, sizeMax := 0, sizeTotal := 0, errors := [] }

/-- `obj[k] = (obj[k] || 0) + 1` on a JS object: update in place when the
key exists, append otherwise. -/
def bump : List (String × Nat) → String → List (String × Nat)
  | [], k => [(k, 1)]
  | (k', v) :: rest, k =>
      if k' == k then (k', v + 1) :: rest else (k', v) :: bump rest k

/-- `DatasetStats.recordFile(metadata, fileSize, status)`
(ml-pipeline.js lines 51-75).  The `metadata` argument is `null` at every
non-`processed` call site, and the object from `toObject()` at the
`processed` call site. -/
def recordFile (s : DatasetStats) (metadata : Option StatsMeta)
    (fileSize : Nat) (status : String) : DatasetStats :=
  let s := { s with totalFiles := s.totalFiles + 1 }
  if status == "processed" then
    match metadata with
    | some md =>
      let s := { s with
        processedFiles := s.processedFiles + 1,
        originCounts := bump s.originCounts md.origin,
        authorCounts := bump s.authorCounts md.author }
      let s := match md.license with
        | some l => { s with licenseCounts := bump s.licenseCounts l }
        | none => s
      let s := match md.toolchain with
        | some t => { s with toolchainCounts := bump s.toolchainCounts t }
        | none => s
      { s with
        sizeMin := some (match s.sizeMin with
          | none => fileSize
          | some m => Nat.min m fileSize),
        sizeMax := Nat.max s.sizeMax fileSize,
        sizeTotal := s.sizeTotal + fileSize }
    | none => s
  else if status == "skipped" then
    { s with skippedFiles := s.skippedFiles + 1 }
  else if status == "error" then
    { s with errorFiles := s.errorFiles + 1 }
  else s

/-- `DatasetStats.recordError(file, error)` (lines 77-79): pushes
`(file, error.message)` onto the `errors` list. -/
def recordError (s : DatasetStats) (file : String) (msg : String) :
    DatasetStats :=
  { s with errors := s.errors ++ [(file, msg)] }

/-- The pipeline configuration (the `CONFIG` object, lines 14-22). -/
structure Config where
  datasetPath : String
  outputPath : String
  strictMode : Bool
  maxFileSize : Nat
  allowedOrigins : List String
  excludePatterns : List String
  deriving Repr

/-- Observable per-item actions of `processFile`, in program order:
`fs.statSync`, the size comparison, the exclude-pattern test, the call
into `extractMetadata` (sidecar read / embedded-tag scan), the
`validate()` call, the origin-filter membership test, the
`fs.readFileSync` of the content, and the `verifyIntegrity` call. -/
inductive Ev where
  | statFile
  | sizeCheck
  | excludeCheck
  | extractStage
  | validateStage
  | filterOrigin
  | readContent
  | integrityCheck
  deriving DecidableEq, Repr

/-- Index of the first occurrence of an event in a trace. -/
def idxOf (e : Ev) : List Ev → Nat
  | [] => 0
  | x :: xs => if x == e then 0 else idxOf e xs + 1

/-- The `{ filePath, metadata, content }` object `processFile` returns on
the pass-through paths. -/
structure PassedItem where
  filePath : String
  metadata : MetadataModel
  content : List Nat
  deriving DecidableEq, Repr

/-- Result of one `processFile` call: the updated statistics, the JS
return value (`null` modelled as `none`), and the trace of observable
actions. -/
structure ProcOut where
  stats : DatasetStats
  res : Option PassedItem
  trace : List Ev
  deriving DecidableEq, Repr

/-- `FileProcessor.processFile(filePath)` (ml-pipeline.js lines 113-175),
with the statistics object threaded explicitly and the file's
environment given by `f`. -/
def processFile (cfg : Config) (stats : DatasetStats) (filePath : String)
    (f : FileModel) : ProcOut :=
  let fileName := baseName filePath
  let tr := [Ev.statFile, Ev.sizeCheck]
  if f.size > cfg.maxFileSize then
    { stats := recordFile stats none f.size "skipped", res := none, trace := tr }
  else
    let tr := tr ++ [Ev.excludeCheck]
    if cfg.excludePatterns.any (fun pat => strIncludes fileName pat) then
      { stats := recordFile stats none f.size "skipped", res := none, trace := tr }
    else
      let tr := tr ++ [Ev.extractStage]
      match f.extracted with
      | none =>
        { stats := recordFile stats none f.size "skipped", res := none, trace := tr }
      | some m =>
        let tr := tr ++ [Ev.validateStage]
        if !m.validation.isValid then
          { stats := recordFile
              (recordError stats filePath ("Invalid metadata: " ++ m.validation.error))
              none f.size "error",
            res := none, trace := tr }
        else
          let tr := tr ++ [Ev.filterOrigin]
          if !(cfg.allowedOrigins.contains m.origin) then
            { stats := recordFile stats none f.size "skipped", res := none, trace := tr }
          else
            let tr := tr ++ [Ev.readContent, Ev.integrityCheck]
            if !(verifyIntegrity m f) then
              { stats := recordFile
                  (recordError stats filePath "Content integrity check failed")
                  none f.size "error",
                res := if cfg.strictMode then none
                       else some ⟨filePath, m, f.content⟩,
                trace := tr }
            else
              { stats := recordFile stats (some (toObject m)) f.size "processed",
                res := some ⟨filePath, m, f.content⟩,
                trace := tr }

/-- One entry of a directory, as `fs.readdirSync` lists it.  The order of
the entry list is the order `readdirSync` returns (the code does not
sort it). -/
inductive FSEntry where
  | file (name : String) (fm : FileModel)
  | dir (name : String) (entries : List FSEntry)

/-- `MLPipeline.isProcessableFile(filename)` (lines 262-265). -/
def isProcessableFile (filename : String) : Bool :=
  ([".txt", ".md", ".html", ".json"].any (fun ext => strEnds filename ext))
    && !(strEnds filename ".meta.xml")

mutual
/-- Contribution of one directory entry to `MLPipeline.findFiles`. -/
def entryFiles (d : String) : FSEntry → List (String × FileModel)
  | .file name fm =>
      if isProcessableFile name then [(d ++ "/" ++ name, fm)] else []
  | .dir name sub => findFiles (d ++ "/" ++ name) sub
termination_by structural e => e

/-- `MLPipeline.findFiles(directory)` (lines 244-260): depth-first
traversal in directory-listing order, keeping processable files. -/
def findFiles (d : String) : List FSEntry → List (String × FileModel)
  | [] => []
  | e :: rest => entryFiles d e ++ findFiles d rest
termination_by structural l => l
end

mutual
/-- Every file under one entry (no processability filter), with its base
name kept alongside the joined path. -/
def entryAll (d : String) : FSEntry → List (String × String × FileModel)
  | .file name fm => [(d ++ "/" ++ name, name, fm)]
  | .dir name sub => listAll (d ++ "/" ++ name) sub
termination_by structural e => e

/-- Every file under a directory listing, in traversal order. -/
def listAll (d : String) : List FSEntry → List (String × String × FileModel)
  | [] => []
  | e :: rest => entryAll d e ++ listAll d rest
termination_by structural l => l
end

/-- Summary block of `DatasetStats.getReport()`.  `successRate`, a
decimal string `(processed/total*100).toFixed(1)` in the code, is
modelled exactly as tenths of a percent. -/
structure ReportSummary where
  totalFiles : Nat
  processedFiles : Nat
  skippedFiles : Nat
  errorFiles : Nat
  successRateTenths : Nat
  deriving DecidableEq, Repr

/-- The report object of `DatasetStats.getReport()` (lines 81-104).
`authors`/`licenses`/`toolchains` are `Object.keys(...).length`; the
`average` rounding of `Math.round` is modelled as nearest-integer
rounding. -/
structure Report where
  summary : ReportSummary
  origins : List (String × Nat)
  authors : Nat
  licenses : Nat
  toolchains : Nat
  sizeMinR : Nat
  sizeMaxR : Nat
  sizeAverage : Nat
  sizeTotalR : Nat
  errors : List (String × String)
  deriving DecidableEq, Repr

/-- `DatasetStats.getReport()` (ml-pipeline.js lines 81-104). -/
def getReport (s : DatasetStats) : Report :=
  let avg := if s.processedFiles > 0
    then (2 * s.sizeTotal + s.processedFiles) / (2 * s.processedFiles)
    else 0
  { summary :=
      { totalFiles := s.totalFiles, processedFiles := s.processedFiles,
        skippedFiles := s.skippedFiles, errorFiles := s.errorFiles,
        successRateTenths := if s.totalFiles > 0
          then (s.processedFiles * 1000 + s.totalFiles / 2) / s.totalFiles
          else 0 },
    origins := s.originCounts,
    authors := s.authorCounts.length,
    licenses := s.licenseCounts.length,
    toolchains := s.toolchainCounts.length,
    sizeMinR := s.sizeMin.getD 0,
    sizeMaxR := s.sizeMax,
    sizeAverage := avg,
    sizeTotalR := s.sizeTotal,
    errors := s.errors }

/-- Content of one file written under the output root: raw content bytes
(`fs.writeFileSync(outputPath, content)`), the re-encoded sidecar
(`metadata.toXML()`, kept symbolic since the codec lives outside the
provided sources), or the JSON statistics report. -/
inductive OutData where
  | bytes (content : List Nat)
  | xmlOf (m : MetadataModel)
  | reportDoc (r : Report)
  deriving DecidableEq, Repr

/-- `fs.writeFileSync`: overwrite the path if present, else append. -/
def writeOut (out : List (String × OutData)) (p : String) (d : OutData) :
    List (String × OutData) :=
  match out with
  | [] => [(p, d)]
  | (q, e) :: rest =>
      if q == p then (p, d) :: rest else (q, e) :: writeOut rest p d

/-- The run environment outside the program: the directory listing of
the content root (`none` when the root is missing or unreadable, which
makes `findFiles` throw), and the set of output paths whose
`writeFileSync` throws an I/O error. -/
structure Env where
  root : Option (List FSEntry)
  writeFailures : List String

/-- `MLPipeline.copyCleanFiles(processedFiles)` (lines 267-294): each
item's content and re-encoded sidecar are written under the output root
preserving the relative path; any per-item write failure is caught,
recorded via `recordError`, and does not stop the loop. -/
def copyCleanFiles (cfg : Config) (env : Env) (stats : DatasetStats) :
    List PassedItem → List (String × OutData) →
    DatasetStats × List (String × OutData)
  | [], output => (stats, output)
  | it :: rest, output =>
    let outP := cfg.outputPath ++ "/" ++ relativeTo cfg.datasetPath it.filePath
    if env.writeFailures.contains outP then
      copyCleanFiles cfg env (recordError stats it.filePath "write failed") rest output
    else
      let out2 := writeOut output outP (OutData.bytes it.content)
      if env.writeFailures.contains (outP ++ ".meta.xml") then
        copyCleanFiles cfg env (recordError stats it.filePath "write failed") rest out2
      else
        copyCleanFiles cfg env stats rest
          (writeOut out2 (outP ++ ".meta.xml") (OutData.xmlOf it.metadata))

/-- Result of one pipeline run launched from the CLI entry point
(lines 350-356): the computed statistics report (`none` when `run()`
rejected before reaching `generateReports`), the resulting output-root
contents, and the process exit status (`process.exit(1)` fires only when
`run()` rejects; otherwise the process exits 0). -/
structure RunOut where
  report : Option Report
  output : List (String × OutData)
  exitCode : Nat
  deriving Repr

/-- `MLPipeline.run()` plus the CLI completion status (lines 210-242 and
350-356).  Per-item failures are caught inside `processFile` and
`copyCleanFiles`; `run()` itself rejects only when the content root
cannot be listed or when writing the report/manifest files throws. -/
def runPipeline (cfg : Config) (env : Env)
    (priorOutput : List (String × OutData)) : RunOut :=
  match env.root with
  | none => { report := none, output := priorOutput, exitCode := 1 }
  | some entries =>
    let files := findFiles cfg.datasetPath entries
    let step := files.foldl
      (fun (acc : DatasetStats × List PassedItem) pf =>
        let r := processFile cfg acc.1 pf.1 pf.2
        (r.stats, acc.2 ++ (match r.res with
          | some it => [it]
          | none => [])))
      (resetStats, [])
    let copied := copyCleanFiles cfg env step.1 step.2 priorOutput
    let report := getReport copied.1
    let reportPath := cfg.outputPath ++ "/processing-report.json"
    let manifestPath := cfg.outputPath ++ "/dataset-manifest.json"
    { report := some report,
      output := if env.writeFailures.contains reportPath then copied.2
                else writeOut copied.2 reportPath (OutData.reportDoc report),
      exitCode := if env.writeFailures.contains reportPath
                     || env.writeFailures.contains manifestPath
                  then 1 else 0 }

/-- The three call shapes of `recordFile` that occur in the pipeline:
`status` is `'processed'` (with a metadata object), `'skipped'`, or
`'error'` (both with `null` metadata). -/
inductive RecCall where
  | processed (md : StatsMeta) (size : Nat)
  | skipped (size : Nat)
  | errored (size : Nat)

/-- Dispatch one `RecCall` to `recordFile` as the call sites do. -/
def applyCall (s : DatasetStats) : RecCall → DatasetStats
  | .processed md sz => recordFile s (some md) sz "processed"
  | .skipped sz => recordFile s none sz "skipped"
  | .errored sz => recordFile s none sz "error"

/-- A whole sequence of `recordFile` calls. -/
def applyCalls (s : DatasetStats) (calls : List RecCall) : DatasetStats :=
  calls.foldl applyCall s

/-- Output path of an accepted item, as `copyCleanFiles` computes it. -/
def outPathOf (cfg : Config) (filePath : String) : String :=
  cfg.outputPath ++ "/" ++ relativeTo cfg.datasetPath filePath

/-! Concrete data for witnesses and counterexamples. -/

/-- A valid human-origin metadata record whose `contentHash` is `"h1"`. -/
def mdHuman : MetadataModel :=
  { origin := "human", author := "alice", license := some "MIT",
    toolchain := none, contentHash := "h1",
    validation := { isValid := true, error := "" } }

/-- A record that fails `validate()` (missing author). -/
def mdInvalid : MetadataModel :=
  { origin := "human", author := "", license := none,
    toolchain := none, contentHash := "h1",
    validation := { isValid := false, error := "Missing required field: author" } }

/-- A file whose recomputed digest equals the record's `contentHash`. -/
def fileClean : FileModel :=
  { size := 5, extracted := some mdHuman, content := [104, 105],
    recomputedHash := "h1" }

/-- A file whose recomputed digest differs from the record's
`contentHash` (tampered content). -/
def fileTampered : FileModel :=
  { size := 5, extracted := some mdHuman, content := [104, 105],
    recomputedHash := "h2" }

/-- A file with no metadata from any source. -/
def fileNoMeta : FileModel :=
  { size := 5, extracted := none, content := [104, 105],
    recomputedHash := "h1" }

/-- A file whose extracted record fails validation. -/
def fileInvalid : FileModel :=
  { size := 5, extracted := some mdInvalid, content := [104, 105],
    recomputedHash := "h1" }

/-- A file larger than the configured maximum size. -/
def fileBig : FileModel :=
  { size := 200, extracted := some mdHuman, content := [104, 105],
    recomputedHash := "h1" }

/-- A file whose record's origin is `"ai"`. -/
def fileAi : FileModel :=
  { size := 5,
    extracted := some { mdHuman with origin := "ai" },
    content := [104, 105], recomputedHash := "h1" }

/-- Lenient configuration: origins restricted to `human`, 100-byte size
cap, no exclude patterns. -/
def cfgLenient : Config :=
  { datasetPath := "data", outputPath := "out", strictMode := false,
    maxFileSize := 100, allowedOrigins := ["human"], excludePatterns := [] }

/-- The same configuration with strict mode on. -/
def cfgStrict : Config := { cfgLenient with strictMode := true }

/-- One tampered item under the content root, all writes succeeding. -/
def envTampered : Env :=
  { root := some [FSEntry.file "a.txt" fileTampered], writeFailures := [] }

/-- One clean item whose output copy fails. -/
def envCopyFail : Env :=
  { root := some [FSEntry.file "a.txt" fileClean],
    writeFailures := ["out/a.txt"] }

/-! Helper lemmas. -/

/-- Every `recordFile` call made by the pipeline increments `totalFiles`
by exactly one. -/
theorem applyCall_totalFiles (s : DatasetStats) (c : RecCall) :
    (applyCall s c).totalFiles = s.totalFiles + 1 := by
  cases c with
  | processed md sz =>
      cases hl : md.license <;> cases ht : md.toolchain <;>
        simp [applyCall, recordFile, hl, ht]
  | skipped sz => simp [applyCall, recordFile]
  | errored sz => simp [applyCall, recordFile]

/-- Every `recordFile` call made by the pipeline increments exactly one
of the three outcome counters by exactly one. -/
theorem applyCall_outcome (s : DatasetStats) (c : RecCall) :
    ((applyCall s c).processedFiles = s.processedFiles + 1 ∧
     (applyCall s c).skippedFiles = s.skippedFiles ∧
     (applyCall s c).errorFiles = s.errorFiles) ∨
    ((applyCall s c).processedFiles = s.processedFiles ∧
     (applyCall s c).skippedFiles = s.skippedFiles + 1 ∧
     (applyCall s c).errorFiles = s.errorFiles) ∨
    ((applyCall s c).processedFiles = s.processedFiles ∧
     (applyCall s c).skippedFiles = s.skippedFiles ∧
     (applyCall s c).errorFiles = s.errorFiles + 1) := by
  cases c with
  | processed md sz =>
      left
      cases hl : md.license <;> cases ht : md.toolchain <;>
        simp [applyCall, recordFile, hl, ht]
  | skipped sz => right; left; simp [applyCall, recordFile]
  | errored sz => right; right; simp [applyCall, recordFile]

/-- The counter balance `total = processed + skipped + error` is
preserved by every sequence of `recordFile` calls. -/
theorem applyCalls_counts_inv (calls : List RecCall) :
    ∀ s : DatasetStats,
      s.totalFiles = s.processedFiles + s.skippedFiles + s.errorFiles →
      (applyCalls s calls).totalFiles =
        (applyCalls s calls).processedFiles +
          (applyCalls s calls).skippedFiles +
          (applyCalls s calls).errorFiles := by
  induction calls with
  | nil => intro s h; simpa [applyCalls] using h
  | cons c rest ih =>
      intro s h
      have h1 := applyCall_totalFiles s c
      have h2 := applyCall_outcome s c
      have hstep : (applyCall s c).totalFiles =
          (applyCall s c).processedFiles + (applyCall s c).skippedFiles +
            (applyCall s c).errorFiles := by
        rcases h2 with ⟨a, b, d⟩ | ⟨a, b, d⟩ | ⟨a, b, d⟩ <;> omega
      have hrest := ih (applyCall s c) hstep
      simpa [applyCalls] using hrest

/-! Claim theorems. -/

/-- C7: after any sequence of `recordFile` calls (each with status
`processed`, `skipped`, or `error`), `DatasetStats` satisfies
`totalFiles = processedFiles + skippedFiles + errorFiles`: every call
increments `totalFiles` by exactly one and exactly one of the three
outcome counters by exactly one, so every per-item terminal outcome
updates the statistics exactly once. -/
theorem recordFile_count_invariant :
    (∀ (s : DatasetStats) (c : RecCall),
        (applyCall s c).totalFiles = s.totalFiles + 1 ∧
        (((applyCall s c).processedFiles = s.processedFiles + 1 ∧
          (applyCall s c).skippedFiles = s.skippedFiles ∧
          (applyCall s c).errorFiles = s.errorFiles) ∨
         ((applyCall s c).processedFiles = s.processedFiles ∧
          (applyCall s c).skippedFiles = s.skippedFiles + 1 ∧
          (applyCall s c).errorFiles = s.errorFiles) ∨
         ((applyCall s c).processedFiles = s.processedFiles ∧
          (applyCall s c).skippedFiles = s.skippedFiles ∧
          (applyCall s c).errorFiles = s.errorFiles + 1))) ∧
    (∀ calls : List RecCall,
        (applyCalls resetStats calls).totalFiles =
          (applyCalls resetStats calls).processedFiles +
            (applyCalls resetStats calls).skippedFiles +
            (applyCalls resetStats calls).errorFiles) :=
  ⟨fun s c => ⟨applyCall_totalFiles s c, applyCall_outcome s c⟩,
   fun calls => applyCalls_counts_inv calls resetStats (by simp [resetStats])⟩

/-- C10: `DatasetStats.recordError` appends exactly one
(file, error-message) pair to the `errors` list and leaves every other
field unchanged; consequently an output-copy failure, which calls
`recordError` without `recordFile`, can make the report's error list
longer than `errorFiles` (demonstrated on a concrete run with one clean
item whose copy fails: one recorded error, zero `errorFiles`). -/
theorem recordError_frame :
    (∀ (s : DatasetStats) (file msg : String),
        (recordError s file msg).errors = s.errors ++ [(file, msg)] ∧
        (recordError s file msg).totalFiles = s.totalFiles ∧
        (recordError s file msg).processedFiles = s.processedFiles ∧
        (recordError s file msg).skippedFiles = s.skippedFiles ∧
        (recordError s file msg).errorFiles = s.errorFiles ∧
        (recordError s file msg).originCounts = s.originCounts ∧
        (recordError s file msg).authorCounts = s.authorCounts ∧
        (recordError s file msg).licenseCounts = s.licenseCounts ∧
        (recordError s file msg).toolchainCounts = s.toolchainCounts ∧
        (recordError s file msg).sizeMin = s.sizeMin ∧
        (recordError s file msg).sizeMax = s.sizeMax ∧
        (recordError s file msg).sizeTotal = s.sizeTotal) ∧
    ((runPipeline cfgLenient envCopyFail []).report.map
        (fun r => (r.errors.length, r.summary.errorFiles)) = some (1, 0)) := by
  refine ⟨fun s file msg =>
    ⟨rfl, rfl, rfl, rfl, rfl, rfl, rfl, rfl, rfl, rfl, rfl, rfl⟩, ?_⟩
  decide

/-- C5: an item whose byte size exceeds the configured maximum is
recorded as `Skipped` and `processFile` returns `null` with a trace
containing only the `statSync` and size comparison: no metadata
extraction (no sidecar read, no embedded-tag scan) and no content read
is ever attempted. -/
theorem oversize_skipped_before_read :
    ∀ (cfg : Config) (s : DatasetStats) (p : String) (f : FileModel),
      f.size > cfg.maxFileSize →
      (processFile cfg s p f).res = none ∧
      (processFile cfg s p f).stats.skippedFiles = s.skippedFiles + 1 ∧
      (processFile cfg s p f).stats.totalFiles = s.totalFiles + 1 ∧
      (processFile cfg s p f).stats.errors = s.errors ∧
      (processFile cfg s p f).trace = [Ev.statFile, Ev.sizeCheck] ∧
      Ev.extractStage ∉ (processFile cfg s p f).trace ∧
      Ev.readContent ∉ (processFile cfg s p f).trace := by
  intro cfg s p f h
  simp [processFile, h, recordFile]

/-- Witness for C5 at a concrete oversize file. -/
theorem oversize_skipped_before_read_wit :
    fileBig.size > cfgLenient.maxFileSize ∧
    (processFile cfgLenient resetStats "data/big.txt" fileBig).res = none ∧
    (processFile cfgLenient resetStats "data/big.txt" fileBig).trace =
      [Ev.statFile, Ev.sizeCheck] :=
  ⟨by decide,
   (oversize_skipped_before_read cfgLenient resetStats "data/big.txt" fileBig
      (by decide)).1,
   (oversize_skipped_before_read cfgLenient resetStats "data/big.txt" fileBig
      (by decide)).2.2.2.2.1⟩

/-- C4: absent and malformed metadata get distinct terminal outcomes.
If extraction returns `null`, the item is `Skipped` (`skippedFiles`
incremented, no error recorded); if a record is extracted but fails
`validate()`, the item is `Errored`: `errorFiles` is incremented,
`skippedFiles` is not, and an (item, error) pair naming the violation is
appended to the error list. -/
theorem absent_vs_malformed :
    ∀ (cfg : Config) (s : DatasetStats) (p : String) (f : FileModel),
      f.size ≤ cfg.maxFileSize →
      cfg.excludePatterns.any (fun pat => strIncludes (baseName p) pat) = false →
      (f.extracted = none →
        (processFile cfg s p f).res = none ∧
        (processFile cfg s p f).stats.skippedFiles = s.skippedFiles + 1 ∧
        (processFile cfg s p f).stats.errorFiles = s.errorFiles ∧
        (processFile cfg s p f).stats.errors = s.errors) ∧
      (∀ m : MetadataModel, f.extracted = some m →
        m.validation.isValid = false →
        (processFile cfg s p f).res = none ∧
        (processFile cfg s p f).stats.errorFiles = s.errorFiles + 1 ∧
        (processFile cfg s p f).stats.skippedFiles = s.skippedFiles ∧
        (processFile cfg s p f).stats.errors =
          s.errors ++ [(p, "Invalid metadata: " ++ m.validation.error)]) := by
  intro cfg s p f hsize hexcl
  have hs : ¬ (f.size > cfg.maxFileSize) := Nat.not_lt.mpr hsize
  constructor
  · intro hext
    simp [processFile, hs, hexcl, hext, recordFile]
  · intro m hext hval
    simp [processFile, hs, hexcl, hext, hval, recordFile, recordError]

/-- Witness for C4 at a concrete metadata-less file and a concrete
invalid-metadata file. -/
theorem absent_vs_malformed_wit :
    fileNoMeta.extracted = none ∧
    (processFile cfgLenient resetStats "data/a.txt" fileNoMeta).res = none ∧
    (processFile cfgLenient resetStats "data/a.txt" fileNoMeta).stats.skippedFiles =
      resetStats.skippedFiles + 1 ∧
    mdInvalid.validation.isValid = false ∧
    (processFile cfgLenient resetStats "data/b.txt" fileInvalid).stats.errorFiles =
      resetStats.errorFiles + 1 :=
  ⟨rfl,
   ((absent_vs_malformed cfgLenient resetStats "data/a.txt" fileNoMeta
       (by decide) rfl).1 rfl).1,
   ((absent_vs_malformed cfgLenient resetStats "data/a.txt" fileNoMeta
       (by decide) rfl).1 rfl).2.1,
   rfl,
   ((absent_vs_malformed cfgLenient resetStats "data/b.txt" fileInvalid
       (by decide) rfl).2 mdInvalid rfl rfl).2.1⟩

/-- C6: an item with extracted, valid metadata whose origin is not in
the allowed-origin set is rejected: `processFile` returns `null`, the
item is recorded as `Skipped`, and the rejection is independent of the
item's size, name, integrity status, content and of strict mode (all
universally quantified); the content is never read and integrity is
never checked on the reject paths. -/
theorem origin_filter_rejects :
    ∀ (cfg : Config) (s : DatasetStats) (p : String) (f : FileModel)
      (m : MetadataModel),
      f.extracted = some m →
      m.validation.isValid = true →
      cfg.allowedOrigins.contains m.origin = false →
      (processFile cfg s p f).res = none ∧
      (processFile cfg s p f).stats.skippedFiles = s.skippedFiles + 1 ∧
      (processFile cfg s p f).stats.errorFiles = s.errorFiles ∧
      (processFile cfg s p f).stats.processedFiles = s.processedFiles ∧
      Ev.readContent ∉ (processFile cfg s p f).trace ∧
      Ev.integrityCheck ∉ (processFile cfg s p f).trace := by
  intro cfg s p f m hext hval hor
  have hor' : m.origin ∉ cfg.allowedOrigins := by simpa using hor
  by_cases h1 : f.size > cfg.maxFileSize
  · simp [processFile, h1, recordFile]
  · cases h2 : cfg.excludePatterns.any (fun pat => strIncludes (baseName p) pat) with
    | true => simp [processFile, h1, h2, recordFile]
    | false => simp [processFile, h1, h2, hext, hval, hor', recordFile]

/-- Witness for C6 at a concrete ai-origin file under
`allowed-origins = ["human"]`. -/
theorem origin_filter_rejects_wit :
    cfgLenient.allowedOrigins.contains "ai" = false ∧
    (processFile cfgLenient resetStats "data/ai.txt" fileAi).res = none ∧
    (processFile cfgLenient resetStats "data/ai.txt" fileAi).stats.skippedFiles =
      resetStats.skippedFiles + 1 :=
  ⟨by decide,
   (origin_filter_rejects cfgLenient resetStats "data/ai.txt" fileAi
      { mdHuman with origin := "ai" } rfl rfl (by decide)).1,
   (origin_filter_rejects cfgLenient resetStats "data/ai.txt" fileAi
      { mdHuman with origin := "ai" } rfl rfl (by decide)).2.1⟩

/-- C3: for an item with extracted, valid, origin-allowed metadata whose
recomputed content hash differs from `record.contentHash`: the mismatch
is recorded (error pair appended, `errorFiles` incremented); under
strict mode `processFile` returns `null`, excluding the item from the
output set; under lenient mode it returns the item, and `copyCleanFiles`
writes the item's content (and re-encoded sidecar) under the output
root when the writes succeed. -/
theorem tampered_strict_vs_lenient :
    ∀ (cfg : Config) (s : DatasetStats) (p : String) (f : FileModel)
      (m : MetadataModel),
      f.size ≤ cfg.maxFileSize →
      cfg.excludePatterns.any (fun pat => strIncludes (baseName p) pat) = false →
      f.extracted = some m →
      m.validation.isValid = true →
      cfg.allowedOrigins.contains m.origin = true →
      m.contentHash ≠ f.recomputedHash →
      (processFile cfg s p f).stats.errors =
        s.errors ++ [(p, "Content integrity check failed")] ∧
      (processFile cfg s p f).stats.errorFiles = s.errorFiles + 1 ∧
      (cfg.strictMode = true → (processFile cfg s p f).res = none) ∧
      (cfg.strictMode = false →
        (processFile cfg s p f).res = some ⟨p, m, f.content⟩ ∧
        ∀ (env : Env) (st : DatasetStats) (prior : List (String × OutData)),
          env.writeFailures = [] →
          (copyCleanFiles cfg env st [⟨p, m, f.content⟩] prior).2 =
            writeOut (writeOut prior (outPathOf cfg p) (OutData.bytes f.content))
              (outPathOf cfg p ++ ".meta.xml") (OutData.xmlOf m)) := by
  intro cfg s p f m hsize hexcl hext hval hor hne
  have hs : ¬ (f.size > cfg.maxFileSize) := Nat.not_lt.mpr hsize
  have hor' : m.origin ∈ cfg.allowedOrigins := by simpa using hor
  have hvi : verifyIntegrity m f = false := by
    simpa [verifyIntegrity] using hne
  refine ⟨?_, ?_, ?_, ?_⟩
  · simp [processFile, hs, hexcl, hext, hval, hor', hvi, recordFile, recordError]
  · simp [processFile, hs, hexcl, hext, hval, hor', hvi, recordFile, recordError]
  · intro hstrict
    simp [processFile, hs, hexcl, hext, hval, hor', hvi, hstrict]
  · intro hstrict
    constructor
    · simp [processFile, hs, hexcl, hext, hval, hor', hvi, hstrict]
    · intro env st prior hwf
      simp [copyCleanFiles, hwf, outPathOf]

/-- Witness for C3 at a concrete tampered file under the strict and the
lenient configuration. -/
theorem tampered_strict_vs_lenient_wit :
    mdHuman.contentHash ≠ fileTampered.recomputedHash ∧
    (processFile cfgStrict resetStats "data/a.txt" fileTampered).res = none ∧
    (processFile cfgLenient resetStats "data/a.txt" fileTampered).res =
      some ⟨"data/a.txt", mdHuman, fileTampered.content⟩ :=
  ⟨by decide,
   (tampered_strict_vs_lenient cfgStrict resetStats "data/a.txt" fileTampered
      mdHuman (by decide) rfl rfl rfl (by decide) (by decide)).2.2.1 rfl,
   ((tampered_strict_vs_lenient cfgLenient resetStats "data/a.txt" fileTampered
      mdHuman (by decide) rfl rfl rfl (by decide) (by decide)).2.2.2 rfl).1⟩

/-- C2 (amended): for every item that passes the size and exclusion
checks and has extracted, valid metadata, the per-item stages run in
the order extraction, validation, origin filtering, and only then (and
only for items whose origin passes the filter) content read and
integrity verification — filtering precedes integrity verification,
not the other way round. -/
theorem stage_order :
    ∀ (cfg : Config) (s : DatasetStats) (p : String) (f : FileModel)
      (m : MetadataModel),
      f.size ≤ cfg.maxFileSize →
      cfg.excludePatterns.any (fun pat => strIncludes (baseName p) pat) = false →
      f.extracted = some m →
      m.validation.isValid = true →
      (processFile cfg s p f).trace =
        [Ev.statFile, Ev.sizeCheck, Ev.excludeCheck, Ev.extractStage,
         Ev.validateStage, Ev.filterOrigin] ++
          (if m.origin ∈ cfg.allowedOrigins
           then [Ev.readContent, Ev.integrityCheck] else []) := by
  intro cfg s p f m hsize hexcl hext hval
  have hs : ¬ (f.size > cfg.maxFileSize) := Nat.not_lt.mpr hsize
  by_cases hor : m.origin ∈ cfg.allowedOrigins
  · cases hvi : verifyIntegrity m f <;>
      simp [processFile, hs, hexcl, hext, hval, hor, hvi]
  · simp [processFile, hs, hexcl, hext, hval, hor]

/-- Witness for C2 (amended) at a concrete item that passes the filter. -/
theorem stage_order_wit :
    fileTampered.extracted = some mdHuman ∧
    (processFile cfgLenient resetStats "data/a.txt" fileTampered).trace =
      [Ev.statFile, Ev.sizeCheck, Ev.excludeCheck, Ev.extractStage,
       Ev.validateStage, Ev.filterOrigin] ++
        (if mdHuman.origin ∈ cfgLenient.allowedOrigins
         then [Ev.readContent, Ev.integrityCheck] else []) :=
  ⟨rfl,
   stage_order cfgLenient resetStats "data/a.txt" fileTampered mdHuman
     (by decide) rfl rfl rfl⟩

/-- C2 counterexample: on a concrete item with extracted, valid metadata
the origin filter runs strictly before the integrity check (indices 5
and 7 of the trace), so integrity verification is not performed before
the origin filter as claimed. -/
theorem filter_before_integrity_cex :
    (processFile cfgLenient resetStats "data/a.txt" fileTampered).trace =
      [Ev.statFile, Ev.sizeCheck, Ev.excludeCheck, Ev.extractStage,
       Ev.validateStage, Ev.filterOrigin, Ev.readContent, Ev.integrityCheck] ∧
    idxOf Ev.filterOrigin
        (processFile cfgLenient resetStats "data/a.txt" fileTampered).trace <
      idxOf Ev.integrityCheck
        (processFile cfgLenient resetStats "data/a.txt" fileTampered).trace := by
  decide

/-- C1 (amended): the run's completion status is zero whenever the
content root exists and the report/manifest writes succeed — regardless
of strict mode and of how many items were skipped or errored; a
non-zero status arises only from such run-level failures, never from
per-item `Errored` outcomes. -/
theorem run_exit_zero_when_root_ok :
    ∀ (cfg : Config) (env : Env) (prior : List (String × OutData))
      (es : List FSEntry),
      env.root = some es →
      (cfg.outputPath ++ "/processing-report.json") ∉ env.writeFailures →
      (cfg.outputPath ++ "/dataset-manifest.json") ∉ env.writeFailures →
      (runPipeline cfg env prior).exitCode = 0 := by
  intro cfg env prior es hroot h1 h2
  simp [runPipeline, hroot, h1, h2]

/-- Witness for C1 (amended): the strict run over the tampered item
completes with status zero. -/
theorem run_exit_zero_when_root_ok_wit :
    (runPipeline cfgStrict envTampered []).exitCode = 0 :=
  run_exit_zero_when_root_ok cfgStrict envTampered []
    [FSEntry.file "a.txt" fileTampered] rfl (by decide) (by decide)

/-- C1 counterexample: a strict-mode run in which one item reached
`Errored` (`errorFiles = 1`) still reports completion status `0`,
refuting the claim that strict mode plus an errored item yields a
non-zero status. -/
theorem strict_errored_exit_zero_cex :
    cfgStrict.strictMode = true ∧
    (runPipeline cfgStrict envTampered []).report.map
      (fun r => r.summary.errorFiles) = some 1 ∧
    (runPipeline cfgStrict envTampered []).exitCode = 0 := by
  decide

mutual
/-- The files kept from one directory entry are exactly the processable
files among all files under it, in traversal order. -/
theorem entryFiles_eq (d : String) (e : FSEntry) :
    entryFiles d e =
      ((entryAll d e).filter (fun x => isProcessableFile x.2.1)).map
        (fun x => (x.1, x.2.2)) :=
  match e with
  | .file name fm => by
      cases h : isProcessableFile name <;>
        simp [entryFiles, entryAll, h]
  | .dir name sub => by
      simpa [entryFiles, entryAll] using findFiles_eq (d ++ "/" ++ name) sub
termination_by structural e

/-- `findFiles` keeps exactly the processable files of the traversal. -/
theorem findFiles_eq (d : String) (es : List FSEntry) :
    findFiles d es =
      ((listAll d es).filter (fun x => isProcessableFile x.2.1)).map
        (fun x => (x.1, x.2.2)) :=
  match es with
  | [] => by simp [findFiles, listAll]
  | e :: rest => by
      simp [findFiles, listAll, entryFiles_eq d e, findFiles_eq d rest]
termination_by structural es
end

/-- C8 (amended): discovery enumerates exactly the regular files under
the content root whose names end with a recognized content extension
(`.txt`, `.md`, `.html`, `.json`) and not with the reserved sidecar
suffix `.meta.xml`, by recursive depth-first traversal in
directory-listing order (`findFiles` equals the processability-filtered
pre-order file listing); lexical order within a directory is not
enforced by the traversal itself. -/
theorem findFiles_exactly_processable :
    (∀ (d : String) (es : List FSEntry),
        findFiles d es =
          ((listAll d es).filter (fun x => isProcessableFile x.2.1)).map
            (fun x => (x.1, x.2.2))) ∧
    (∀ name : String,
        isProcessableFile name = true ↔
          ((strEnds name ".txt" = true ∨ strEnds name ".md" = true ∨
            strEnds name ".html" = true ∨ strEnds name ".json" = true) ∧
           strEnds name ".meta.xml" = false)) := by
  refine ⟨fun d es => findFiles_eq d es, fun name => ?_⟩
  simp [isProcessableFile]

/-- C8 counterexample: a directory whose listing is
`["b.txt", "a.txt"]` is enumerated in that listing order, although
`"root/a.txt"` sorts lexically before `"root/b.txt"` — discovery does
not sort entries lexically. -/
theorem findFiles_order_cex :
    (findFiles "root" [FSEntry.file "b.txt" fileClean,
        FSEntry.file "a.txt" fileClean]).map Prod.fst =
      ["root/b.txt", "root/a.txt"] ∧
    lexLt "root/a.txt".toList "root/b.txt".toList = true := by
  constructor
  · decide
  · decide

/-- The statistics component of `copyCleanFiles` does not depend on the
pre-existing output contents. -/
theorem copyCleanFiles_stats_indep (cfg : Config) (env : Env) :
    ∀ (items : List PassedItem) (st : DatasetStats)
      (o1 o2 : List (String × OutData)),
      (copyCleanFiles cfg env st items o1).1 =
        (copyCleanFiles cfg env st items o2).1 := by
  intro items
  induction items with
  | nil => intro st o1 o2; rfl
  | cons it rest ih =>
      intro st o1 o2
      by_cases h1 : (cfg.outputPath ++ "/" ++ relativeTo cfg.datasetPath it.filePath)
          ∈ env.writeFailures
      · simp only [copyCleanFiles]
        simp [h1]
        exact ih _ _ _
      · by_cases h2 : (cfg.outputPath ++ "/" ++ relativeTo cfg.datasetPath it.filePath
            ++ ".meta.xml") ∈ env.writeFailures
        · simp only [copyCleanFiles]
          simp [h1, h2]
          exact ih _ _ _
        · simp only [copyCleanFiles]
          simp [h1, h2]
          exact ih _ _ _

/-- C9: the statistics report of a pipeline run is a function of the
configuration and the input tree (with the write-failure environment)
alone — it does not depend on what the output root contained before the
run.  Two runs over the same unchanged input tree therefore produce
identical reports: every counter, mapping, size statistic, percentage
and the error list agree. -/
theorem report_deterministic :
    ∀ (cfg : Config) (env : Env) (o1 o2 : List (String × OutData)),
      (runPipeline cfg env o1).report = (runPipeline cfg env o2).report := by
  intro cfg env o1 o2
  cases hroot : env.root with
  | none => simp [runPipeline, hroot]
  | some es =>
      simp only [runPipeline, hroot]
      exact congrArg some
        (congrArg getReport (copyCleanFiles_stats_indep cfg env _ _ o1 o2))

end MLPipeline
